import Mathlib

/-!
Verification of the File-Search-Engine repository against its
natural-language specification.  The React frontend is embedded directly
from the JavaScript sources; the FastAPI backend (vector index, chunker,
job orchestrator, model lifecycle manager) is not part of the staged
sources, so those components are modelled from the specification's words,
as noted on each definition.
-/

namespace FSE

/-! ## SearchBar (src/frontend/src/components/SearchBar.jsx) -/

/-- Embeds `handleSubmit` of `src/frontend/src/components/SearchBar.jsx`
(lines 8-13): `if (query.trim()) { onSearch(query); }`.  A JavaScript
string is truthy exactly when it is non-empty, so the submission invokes
`onSearch` with the untrimmed query precisely when the trimmed query is
non-empty.  The return value is the argument passed to `onSearch`, or
`none` when no search request is made. -/
def handleSubmit (query : String) : Option String :=
  if query.trim = "" then none else some query

/-! ## BenchmarkResults (src/unnamed/part_003) -/

/-- The metric keys `getBestModel` is called with in `src/unnamed/part_003`
(benchmark results view): `tokens_per_second`, `fact_retention_score`,
`peak_memory_mb`, plus the load-time metric recorded per benchmark result. -/
inductive Metric where
  | tokens_per_second
  | fact_retention_score
  | peak_memory_mb
  | load_time_s
deriving DecidableEq

/-- One benchmark result row as rendered by `src/unnamed/part_003`:
per-model numeric metrics (JavaScript numbers modelled as rationals). -/
structure BenchResult where
  model_name : String
  tokens_per_second : ℚ
  fact_retention_score : ℚ
  peak_memory_mb : ℚ
  load_time_s : ℚ
deriving DecidableEq

/-- Dynamic field access `r[metric]` of `src/unnamed/part_003`. -/
def metricValue (r : BenchResult) : Metric → ℚ
  | .tokens_per_second => r.tokens_per_second
  | .fact_retention_score => r.fact_retention_score
  | .peak_memory_mb => r.peak_memory_mb
  | .load_time_s => r.load_time_s

/-- The comparison step of the `reduce` in `getBestModel`
(src/unnamed/part_003 lines 53-58): for `tokens_per_second` and
`fact_retention_score` keep the current row when it is strictly greater,
otherwise keep the current row when it is strictly smaller. -/
def selectBetter (metric : Metric) (best curr : BenchResult) : BenchResult :=
  if metric = .tokens_per_second ∨ metric = .fact_retention_score then
    if metricValue best metric < metricValue curr metric then curr else best
  else
    if metricValue curr metric < metricValue best metric then curr else best

/-- Embeds `getBestModel` of `src/unnamed/part_003` (lines 51-59):
`if (!results?.results?.length) return null;` then a `reduce` without an
initial value, i.e. a left fold over the tail starting from the head. -/
def getBestModel (results : Option (List BenchResult)) (metric : Metric) :
    Option BenchResult :=
  match results with
  | none => none
  | some [] => none
  | some (b :: rest) => some (rest.foldl (selectBetter metric) b)

/-! ## Text Chunker (backend component, not in the staged sources) -/

/-- One chunk as produced by the Text Chunker: `(text_span, start_offset,
end_offset)` per the contract of spec section 4.1. -/
structure ChunkSpan where
  text_span : String
  start_off : ℕ
  end_off : ℕ
deriving DecidableEq

/-- Modelled from the spec: the Text Chunker's sliding window (spec 4.1);
the backend chunker implementation is not among the staged sources.  Emits
a chunk starting at every multiple of the stride `step = max_chars -
overlap_chars` that lies strictly inside the text; each chunk ends at
`min (start + max_chars, length)`.  `fuel` bounds the recursion. -/
def chunkFrom (text : String) (maxChars step start fuel : ℕ) : List ChunkSpan :=
  match fuel with
  | 0 => []
  | fuel + 1 =>
    if start < text.length then
      ⟨(text.drop start).take (min (start + maxChars) text.length - start),
        start, min (start + maxChars) text.length⟩ ::
        chunkFrom text maxChars step (start + step) fuel
    else []

/-- Modelled from the spec: `chunk(text, max_chars, overlap_chars)` of spec
section 4.1 (the backend chunker is not among the staged sources).  Splits
on the target length with the configured overlap; an empty or
whitespace-only document yields zero chunks — not an error.  A degenerate
configuration with `max_chars ≤ overlap_chars` would not advance and
yields no chunks. -/
def chunk (text : String) (maxChars overlapChars : ℕ) : List ChunkSpan :=
  if text.data.all Char.isWhitespace then []
  else if maxChars ≤ overlapChars then []
  else chunkFrom text maxChars (maxChars - overlapChars) 0 (text.length + 1)

/-! ## Vector Index & Metadata Store (backend component, not in the staged
sources) -/

/-- A vector index entry: chunk id `(document id, sequence index)` plus the
chunk's embedding vector (spec section 3). -/
structure IndexEntry where
  docId : String
  seq : ℕ
  vec : List ℚ
deriving DecidableEq

/-- A metadata chunk record: chunk id plus its text span (spec section 3). -/
structure MetaChunk where
  docId : String
  seq : ℕ
  text : String
deriving DecidableEq

/-- A stored Document record: absolute path, size in bytes, last-modified
timestamp (spec section 3). -/
structure DocRecord where
  path : String
  size : ℕ
  mtime : ℕ
deriving DecidableEq

/-- Modelled from the spec: the Vector Index & Metadata Store state (spec
4.3); the backend store implementation is not among the staged sources. -/
structure Store where
  index : List IndexEntry
  meta : List MetaChunk
  docs : List DocRecord
deriving DecidableEq

/-- The empty index/store, the fallback state of spec 4.3. -/
def emptyStore : Store := ⟨[], [], []⟩

/-- Chunk id of a vector index entry. -/
def entryCid (e : IndexEntry) : String × ℕ := (e.docId, e.seq)

/-- Chunk id of a metadata chunk record. -/
def metaCid (m : MetaChunk) : String × ℕ := (m.docId, m.seq)

/-- Referential consistency of spec section 3: every index entry has
exactly one corresponding chunk record and vice versa (chunk-id lists
coincide position by position). -/
def Store.consistent (st : Store) : Prop :=
  st.index.map entryCid = st.meta.map metaCid

instance : DecidablePred Store.consistent := fun st =>
  inferInstanceAs (Decidable (st.index.map entryCid = st.meta.map metaCid))

/-- Distance-then-chunk-id sort key of `search` (spec 4.3): ascending by
distance, ties broken lexicographically by document id then chunk
sequence. -/
def searchKey (dist : List ℚ → List ℚ → ℚ) (q : List ℚ) (e : IndexEntry) :
    ℚ ×ₗ String ×ₗ ℕ :=
  toLex (dist q e.vec, toLex (e.docId, e.seq))

/-- Comparison relation used to rank index entries for a query. -/
def entryLE (dist : List ℚ → List ℚ → ℚ) (q : List ℚ) (a b : IndexEntry) : Prop :=
  searchKey dist q a ≤ searchKey dist q b

instance (dist : List ℚ → List ℚ → ℚ) (q : List ℚ) : DecidableRel (entryLE dist q) :=
  fun a b => inferInstanceAs (Decidable (searchKey dist q a ≤ searchKey dist q b))

instance (dist : List ℚ → List ℚ → ℚ) (q : List ℚ) : IsTotal IndexEntry (entryLE dist q) :=
  ⟨fun a b => le_total (searchKey dist q a) (searchKey dist q b)⟩

instance (dist : List ℚ → List ℚ → ℚ) (q : List ℚ) : IsTrans IndexEntry (entryLE dist q) :=
  ⟨fun _ _ _ h1 h2 => le_trans h1 h2⟩

/-- Squared L2 distance between two vectors, one of the two distance
functions spec 4.3 allows (fixed at index-build time); squaring preserves
the L2 ranking and keeps the computation rational. -/
def l2sq (a b : List ℚ) : ℚ :=
  ((a.zip b).map (fun p => (p.1 - p.2) * (p.1 - p.2))).sum

/-- Modelled from the spec: `search(query_vector, k)` of spec 4.3 (the
backend store implementation is not among the staged sources).  Ranks all
entries by distance with the deterministic tie-break and returns the first
`k`; the distance function is a parameter fixed at index-build time. -/
def search (dist : List ℚ → List ℚ → ℚ) (entries : List IndexEntry)
    (q : List ℚ) (k : ℕ) : List IndexEntry :=
  (entries.insertionSort (entryLE dist q)).take k

/-- A chunk/vector pair handed to `upsert_document`: the chunk's text span
with its embedding vector; the sequence index is its position in the
list. -/
structure ChunkData where
  text : String
  vec : List ℚ
deriving DecidableEq

/-- The vector index entries a committed upsert writes for a document. -/
def newIndexEntries (docId : String) (chunks : List ChunkData) : List IndexEntry :=
  chunks.enum.map (fun p => ⟨docId, p.1, p.2.vec⟩)

/-- The metadata chunk records a committed upsert writes for a document. -/
def newMetaChunks (docId : String) (chunks : List ChunkData) : List MetaChunk :=
  chunks.enum.map (fun p => ⟨docId, p.1, p.2.text⟩)

/-- Modelled from the spec: `upsert_document(doc_id, chunks)` of spec 4.3
(the backend store implementation is not among the staged sources).
Atomically replaces all chunks for a document; `fail` injects the
simulated mid-write failure of spec section 8, in which case the previous
state is returned untouched.  Returns the resulting observable state and
whether the upsert committed: the only observable states are the prior one
and the fully-committed one, mirroring the guarded indivisible update of
spec section 5. -/
def upsert_document (st : Store) (docId : String) (chunks : List ChunkData)
    (fail : Bool) : Store × Bool :=
  if fail then (st, false)
  else
    ({ index := st.index.filter (fun e => e.docId != docId) ++ newIndexEntries docId chunks,
       meta := st.meta.filter (fun m => m.docId != docId) ++ newMetaChunks docId chunks,
       docs := st.docs }, true)

/-- A small concrete consistent store: one document with one chunk. -/
def sampleStore : Store :=
  ⟨[⟨"/a.txt", 0, [1]⟩], [⟨"/a.txt", 0, "old"⟩], []⟩

/-- A single replacement chunk/vector pair for the sample store. -/
def sampleChunks : List ChunkData := [⟨"new", [2]⟩]

/-- Modelled from the spec: the versioned on-disk representation of the
Vector Index/Metadata Store (spec section 6); the backend persistence
implementation is not among the staged sources.  A persisted store is
either absent, unreadable, or a versioned snapshot of the store. -/
inductive PersistedStore where
  | missing
  | corrupt
  | versioned (version : ℕ) (index : List IndexEntry) (meta : List MetaChunk)
      (docs : List DocRecord)
deriving DecidableEq

/-- The on-disk format version the current code reads and writes. -/
def STORE_VERSION : ℕ := 1

/-- Modelled from the spec: `load()` of spec 4.3 and section 6 (the backend
persistence implementation is not among the staged sources).  A total
function: a missing or corrupt store, or a snapshot of a mismatched
version, yields the empty index instead of an error. -/
def load (p : PersistedStore) : Store :=
  match p with
  | .missing => emptyStore
  | .corrupt => emptyStore
  | .versioned v idx meta docs =>
    if v = STORE_VERSION then ⟨idx, meta, docs⟩ else emptyStore

/-! ## Model Lifecycle Manager (backend component, not in the staged
sources) -/

/-- A model catalog entry (spec section 3). -/
structure ModelDescriptor where
  id : String
  name : String
  download_size : ℕ
  ram_required : ℕ
  quantization : String
  category : String
deriving DecidableEq

/-- A running download job's mutable status (spec section 3). -/
structure DownloadJob where
  modelId : String
  progress : ℕ
  bytesDownloaded : ℕ
deriving DecidableEq

/-- The currently available system resources sampled by the admission
check (spec 4.6 step 2). -/
structure SysResources where
  availableRam : ℕ
  availableDisk : ℕ
deriving DecidableEq

/-- The download-path errors of the taxonomy in spec section 7. -/
inductive DownloadError where
  | AlreadyDownloading
  | InsufficientResources (reason : String)
  | NotFound
deriving DecidableEq

/-- Modelled from the spec: the Model Lifecycle Manager's observable state
(spec 4.6); the backend implementation is not among the staged sources.
`running` is the single in-flight download job (single-flight, so at most
one exists), `tempFiles` the partial download files on disk, and
`bytesTransferred` a counter of network bytes moved. -/
structure ManagerState where
  running : Option DownloadJob
  tempFiles : List String
  localModels : List String
  bytesTransferred : ℕ
deriving DecidableEq

/-- Modelled from the spec: steps 1-2 of `download(model_id)` (spec 4.6);
the backend implementation is not among the staged sources.  Rejects with
`AlreadyDownloading` when a download job is already running, then runs the
resource admission check and rejects with `InsufficientResources` (with a
human-readable reason) before any transfer begins; otherwise the job
starts with zero progress.  Returns the resulting observable state and the
call's outcome. -/
def download (st : ManagerState) (sys : SysResources) (desc : ModelDescriptor) :
    ManagerState × Except DownloadError Unit :=
  match st.running with
  | some _ => (st, .error .AlreadyDownloading)
  | none =>
    if sys.availableRam < desc.ram_required then
      (st, .error (.InsufficientResources "Insufficient RAM for this model"))
    else if sys.availableDisk < desc.download_size then
      (st, .error (.InsufficientResources "Insufficient disk space for this model"))
    else
      ({ st with running := some ⟨desc.id, 0, 0⟩ }, .ok ())

/-! ## Retrieval & Synthesis Engine (backend component, not in the staged
sources) -/

/-- Outcome of one call to the active Generation Provider: a synthesized
answer, or any unavailability/error (spec 4.4). -/
inductive GenOutcome where
  | ok (answer : String)
  | failed
deriving DecidableEq

/-- What `search(query, k, want_synthesis)` returns: the ranked chunk
results and the synthesized answer string (empty when synthesis was not
requested or not available), per spec 4.4 and section 6. -/
structure SearchResponse where
  results : List IndexEntry
  answer : String
deriving DecidableEq

/-- Modelled from the spec: `search(query, k, want_synthesis)` of spec 4.4
(the backend engine is not among the staged sources).  Embeds the query
through the active Embedding Provider `emb`, ranks chunks through the
Vector Index `search`, and, when synthesis is requested, calls the active
Generation Provider `gen` on the ranked chunks; synthesis is best-effort. -/
def engineSearch (dist : List ℚ → List ℚ → ℚ) (emb : String → List ℚ)
    (gen : List IndexEntry → GenOutcome) (entries : List IndexEntry)
    (query : String) (k : ℕ) (want_synthesis : Bool) : SearchResponse :=
  let ranked := search dist entries (emb query) k
  if want_synthesis then
    match gen ranked with
    | .ok a => ⟨ranked, a⟩
    | .failed => ⟨ranked, ""⟩
  else ⟨ranked, ""⟩

/-! ## Incremental indexing (backend component, not in the staged sources) -/

/-- One scanned file as handed to the core by the extraction collaborator:
path, size, modified-time, and extracted plain text (spec section 6). -/
structure FileInfo where
  path : String
  size : ℕ
  mtime : ℕ
  text : String
deriving DecidableEq

/-- Modelled from the spec: `remove_document(doc_id)` of spec 4.3 (the
backend store implementation is not among the staged sources): deletes all
chunks, vectors and the Document record for that document. -/
def remove_document (st : Store) (docId : String) : Store :=
  ⟨st.index.filter (fun e => e.docId != docId),
   st.meta.filter (fun m => m.docId != docId),
   st.docs.filter (fun d => d.path != docId)⟩

/-- Modelled from the spec: re-chunking and re-embedding one new or changed
file (spec 4.3); the backend implementation is not among the staged
sources.  Chunks the extracted text, calls the Embedding Provider once per
chunk (the second component counts those calls), upserts the chunk/vector
pairs and refreshes the Document record. -/
def reindexFile (emb : String → List ℚ) (st : Store) (f : FileInfo) : Store × ℕ :=
  let cs := chunk f.text 1000 200
  let datas := cs.map (fun c => ChunkData.mk c.text_span (emb c.text_span))
  let st1 := (upsert_document st f.path datas false).1
  ({ st1 with docs := st1.docs.filter (fun d => d.path != f.path) ++
      [⟨f.path, f.size, f.mtime⟩] },
    cs.length)

/-- Modelled from the spec: the per-file comparison step of incremental
indexing (spec 4.3): a file whose (size, modified-time) match its stored
Document record is left untouched with no embedding calls; a new or
changed file is re-chunked and re-embedded. -/
def indexFile (emb : String → List ℚ) (st : Store) (f : FileInfo) : Store × ℕ :=
  match st.docs.find? (fun d => d.path == f.path) with
  | some d =>
    if d.size == f.size && d.mtime == f.mtime then (st, 0)
    else reindexFile emb st f
  | none => reindexFile emb st f

/-- The scan's fold step: threads the store and the running count of
Embedding Provider calls. -/
def scanStep (emb : String → List ℚ) (acc : Store × ℕ) (f : FileInfo) : Store × ℕ :=
  ((indexFile emb acc.1 f).1, acc.2 + (indexFile emb acc.1 f).2)

/-- The removal fold step for documents that vanished from the scan. -/
def removeStep (s : Store) (d : DocRecord) : Store :=
  remove_document s d.path

/-- Modelled from the spec: incremental indexing over a scanned file tree
(spec 4.3); the backend implementation is not among the staged sources.
Processes every scanned file through `indexFile`, then removes documents
missing from the scan via `remove_document`.  The second component counts
Embedding Provider calls. -/
def incrementalIndex (emb : String → List ℚ) (st : Store)
    (files : List FileInfo) : Store × ℕ :=
  let scanned := files.foldl (scanStep emb) (st, 0)
  let stale := scanned.1.docs.filter (fun d => !(files.any (fun f => f.path == d.path)))
  (stale.foldl removeStep scanned.1, scanned.2)

/-- A scanned file matches its stored Document record: the store's lookup
finds a record with the same size and modified-time (spec 4.3). -/
def matchesStored (st : Store) (f : FileInfo) : Prop :=
  ∃ d, st.docs.find? (fun d0 => d0.path == f.path) = some d ∧
    d.size = f.size ∧ d.mtime = f.mtime

/-! Helper facts about `selectBetter` and the fold. -/

theorem selectBetter_eq_or (metric : Metric) (best curr : BenchResult) :
    selectBetter metric best curr = best ∨ selectBetter metric best curr = curr := by
  unfold selectBetter
  split <;> split <;> simp

theorem foldl_selectBetter_mem (metric : Metric) (rest : List BenchResult)
    (b : BenchResult) :
    rest.foldl (selectBetter metric) b = b ∨
      rest.foldl (selectBetter metric) b ∈ rest := by
  induction rest generalizing b with
  | nil => simp
  | cons c cs ih =>
    simp only [List.foldl_cons]
    rcases ih (selectBetter metric b c) with h | h
    · rcases selectBetter_eq_or metric b c with h2 | h2
      · exact Or.inl (h.trans h2)
      · exact Or.inr (by rw [h, h2]; exact List.mem_cons_self c cs)
    · exact Or.inr (List.mem_cons_of_mem c h)

theorem selectBetter_ge_left_max (metric : Metric)
    (hm : metric = .tokens_per_second ∨ metric = .fact_retention_score)
    (best curr : BenchResult) :
    metricValue best metric ≤ metricValue (selectBetter metric best curr) metric ∧
      metricValue curr metric ≤ metricValue (selectBetter metric best curr) metric := by
  unfold selectBetter
  rw [if_pos hm]
  split <;> constructor <;> first | exact le_refl _ | omega | exact le_of_lt (by assumption) | exact le_of_not_lt (by assumption)

theorem selectBetter_le_left_min (metric : Metric)
    (hm : ¬ (metric = .tokens_per_second ∨ metric = .fact_retention_score))
    (best curr : BenchResult) :
    metricValue (selectBetter metric best curr) metric ≤ metricValue best metric ∧
      metricValue (selectBetter metric best curr) metric ≤ metricValue curr metric := by
  unfold selectBetter
  rw [if_neg hm]
  split <;> constructor <;> first | exact le_refl _ | exact le_of_lt (by assumption) | exact le_of_not_lt (by assumption)

theorem foldl_selectBetter_max (metric : Metric)
    (hm : metric = .tokens_per_second ∨ metric = .fact_retention_score)
    (rest : List BenchResult) (b : BenchResult) :
    metricValue b metric ≤ metricValue (rest.foldl (selectBetter metric) b) metric ∧
      ∀ x ∈ rest, metricValue x metric ≤
        metricValue (rest.foldl (selectBetter metric) b) metric := by
  induction rest generalizing b with
  | nil => simp
  | cons c cs ih =>
    simp only [List.foldl_cons]
    obtain ⟨h1, h2⟩ := ih (selectBetter metric b c)
    obtain ⟨hb, hc⟩ := selectBetter_ge_left_max metric hm b c
    refine ⟨le_trans hb h1, ?_⟩
    intro x hx
    rcases List.mem_cons.mp hx with rfl | hx
    · exact le_trans hc h1
    · exact h2 x hx

theorem foldl_selectBetter_min (metric : Metric)
    (hm : ¬ (metric = .tokens_per_second ∨ metric = .fact_retention_score))
    (rest : List BenchResult) (b : BenchResult) :
    metricValue (rest.foldl (selectBetter metric) b) metric ≤ metricValue b metric ∧
      ∀ x ∈ rest, metricValue (rest.foldl (selectBetter metric) b) metric ≤
        metricValue x metric := by
  induction rest generalizing b with
  | nil => simp
  | cons c cs ih =>
    simp only [List.foldl_cons]
    obtain ⟨h1, h2⟩ := ih (selectBetter metric b c)
    obtain ⟨hb, hc⟩ := selectBetter_le_left_min metric hm b c
    refine ⟨le_trans h1 hb, ?_⟩
    intro x hx
    rcases List.mem_cons.mp hx with rfl | hx
    · exact le_trans h1 hc
    · exact h2 x hx

/-- C10: submitting the search form invokes `onSearch(query)` exactly when
the trimmed query is non-empty; an empty or whitespace-only query (one
whose trim is empty) never triggers a search request. -/
theorem searchbar_submits_iff_trim_nonempty (query : String) :
    (handleSubmit query = some query ↔ query.trim ≠ "") ∧
      (query.trim = "" → handleSubmit query = none) := by
  constructor
  · constructor
    · intro h hq
      simp [handleSubmit, hq] at h
    · intro h
      simp [handleSubmit, h]
  · intro h
    simp [handleSubmit, h]

/-- C9: on a non-empty results list `getBestModel` returns some element of
the list whose value at the metric is maximal when the metric is
`tokens_per_second` or `fact_retention_score` and minimal for any other
metric; for an absent (`none`) or empty results list it returns `none`. -/
theorem getBestModel_extremal (results : List BenchResult) (metric : Metric)
    (h : results ≠ []) :
    (∃ r, getBestModel (some results) metric = some r ∧ r ∈ results ∧
      ((metric = .tokens_per_second ∨ metric = .fact_retention_score) →
        ∀ x ∈ results, metricValue x metric ≤ metricValue r metric) ∧
      (¬ (metric = .tokens_per_second ∨ metric = .fact_retention_score) →
        ∀ x ∈ results, metricValue r metric ≤ metricValue x metric)) ∧
    getBestModel none metric = none ∧
    getBestModel (some []) metric = none := by
  refine ⟨?_, rfl, rfl⟩
  obtain ⟨b, rest, rfl⟩ : ∃ b rest, results = b :: rest := by
    cases results with
    | nil => exact absurd rfl h
    | cons b rest => exact ⟨b, rest, rfl⟩
  refine ⟨rest.foldl (selectBetter metric) b, rfl, ?_, ?_, ?_⟩
  · rcases foldl_selectBetter_mem metric rest b with h1 | h1
    · rw [h1]; exact List.mem_cons_self b rest
    · exact List.mem_cons_of_mem b h1
  · intro hm x hx
    obtain ⟨h1, h2⟩ := foldl_selectBetter_max metric hm rest b
    rcases List.mem_cons.mp hx with rfl | hx
    · exact h1
    · exact h2 x hx
  · intro hm x hx
    obtain ⟨h1, h2⟩ := foldl_selectBetter_min metric hm rest b
    rcases List.mem_cons.mp hx with rfl | hx
    · exact h1
    · exact h2 x hx

/-- Concrete instantiation of `getBestModel_extremal`: two benchmark rows,
best by tokens-per-second is the faster one. -/
theorem getBestModel_extremal_witness :
    ([⟨"a", 10, 50, 900, 2⟩, ⟨"b", 20, 40, 800, 3⟩] : List BenchResult) ≠ [] ∧
      (∃ r, getBestModel (some [⟨"a", 10, 50, 900, 2⟩, ⟨"b", 20, 40, 800, 3⟩])
          Metric.tokens_per_second = some r ∧
        r ∈ ([⟨"a", 10, 50, 900, 2⟩, ⟨"b", 20, 40, 800, 3⟩] : List BenchResult) ∧
        ((Metric.tokens_per_second = .tokens_per_second ∨
            Metric.tokens_per_second = .fact_retention_score) →
          ∀ x ∈ ([⟨"a", 10, 50, 900, 2⟩, ⟨"b", 20, 40, 800, 3⟩] : List BenchResult),
            metricValue x .tokens_per_second ≤ metricValue r .tokens_per_second) ∧
        (¬ (Metric.tokens_per_second = .tokens_per_second ∨
            Metric.tokens_per_second = .fact_retention_score) →
          ∀ x ∈ ([⟨"a", 10, 50, 900, 2⟩, ⟨"b", 20, 40, 800, 3⟩] : List BenchResult),
            metricValue r .tokens_per_second ≤ metricValue x .tokens_per_second)) ∧
      getBestModel none Metric.tokens_per_second = none ∧
      getBestModel (some []) Metric.tokens_per_second = none :=
  ⟨by decide, getBestModel_extremal _ Metric.tokens_per_second (by decide)⟩

theorem chunkFrom_step_lt {text : String} {maxChars step start fuel : ℕ}
    (h : start < text.length) :
    chunkFrom text maxChars step start (fuel + 1) =
      ⟨(text.drop start).take (min (start + maxChars) text.length - start),
        start, min (start + maxChars) text.length⟩ ::
        chunkFrom text maxChars step (start + step) fuel := by
  simp [chunkFrom, h]

theorem chunkFrom_step_ge {text : String} {maxChars step start fuel : ℕ}
    (h : ¬ start < text.length) :
    chunkFrom text maxChars step start (fuel + 1) = [] := by
  simp [chunkFrom, h]

theorem all_replicate {α : Type} (p : α → Bool) (n : ℕ) (a : α) (h : p a = true) :
    (List.replicate n a).all p = true := by
  induction n with
  | zero => rfl
  | succ n ih => simp [List.replicate_succ, h, ih]

/-- C8 (amended): chunking any 1500-character text that contains at least
one non-whitespace character, with chunk size 1000 and overlap 200, yields
exactly 2 chunks, the first starting at offset 0 and ending at 1000, the
second starting at offset 800 and ending at 1500.  (A whitespace-only
document yields zero chunks per the spec 4.1 contract, refuting the
unrestricted claim.) -/
theorem chunk_1500_two_chunks (text : String) (h : text.length = 1500)
    (hw : text.data.all Char.isWhitespace = false) :
    (chunk text 1000 200).length = 2 ∧
      (chunk text 1000 200).map ChunkSpan.start_off = [0, 800] ∧
      (chunk text 1000 200).map ChunkSpan.end_off = [1000, 1500] := by
  have h0 : (0 : ℕ) < text.length := by rw [h]; norm_num
  have h8 : (800 : ℕ) < text.length := by rw [h]; norm_num
  have h16 : ¬ (1600 : ℕ) < text.length := by rw [h]; norm_num
  have e : chunk text 1000 200 =
      [⟨(text.drop 0).take 1000, 0, 1000⟩, ⟨(text.drop 800).take 700, 800, 1500⟩] := by
    rw [chunk, if_neg (by simp [hw]), if_neg (by norm_num)]
    have e1 : (1000 : ℕ) - 200 = 800 := by norm_num
    have e2 : text.length + 1 = 1500 + 1 := by rw [h]
    rw [e1, e2, chunkFrom_step_lt h0]
    have e3 : (1500 : ℕ) = 1499 + 1 := by norm_num
    have e4 : (0 : ℕ) + 800 = 800 := by norm_num
    rw [e4, e3, chunkFrom_step_lt h8]
    have e5 : (800 : ℕ) + 800 = 1600 := by norm_num
    have e6 : (1499 : ℕ) = 1498 + 1 := by norm_num
    rw [e5, e6, chunkFrom_step_ge h16]
    rw [h]
    norm_num
  rw [e]
  norm_num

/-- Concrete instantiation of `chunk_1500_two_chunks` on a 1500-character
text of repeated non-whitespace characters. -/
theorem chunk_1500_two_chunks_witness :
    (String.mk (List.replicate 1500 'a')).length = 1500 ∧
      (String.mk (List.replicate 1500 'a')).data.all Char.isWhitespace = false ∧
      ((chunk (String.mk (List.replicate 1500 'a')) 1000 200).length = 2 ∧
        (chunk (String.mk (List.replicate 1500 'a')) 1000 200).map ChunkSpan.start_off =
          [0, 800] ∧
        (chunk (String.mk (List.replicate 1500 'a')) 1000 200).map ChunkSpan.end_off =
          [1000, 1500]) :=
  ⟨by rw [String.length_mk, List.length_replicate], by decide,
    chunk_1500_two_chunks _ (by rw [String.length_mk, List.length_replicate])
      (by decide)⟩

/-- C8 counterexample: the claim as stated quantifies over every
1500-character text, but the chunker contract of spec 4.1 makes a
whitespace-only document yield zero chunks — so the 1500-space text yields
0 chunks, not 2. -/
theorem chunk_1500_whitespace_counterexample :
    (String.mk (List.replicate 1500 ' ')).length = 1500 ∧
      chunk (String.mk (List.replicate 1500 ' ')) 1000 200 = [] ∧
      ¬ (chunk (String.mk (List.replicate 1500 ' ')) 1000 200).length = 2 := by
  have hws : (String.mk (List.replicate 1500 ' ')).data.all Char.isWhitespace = true :=
    all_replicate Char.isWhitespace 1500 ' ' (by decide)
  have hz : chunk (String.mk (List.replicate 1500 ' ')) 1000 200 = [] := by
    rw [chunk, if_pos hws]
  exact ⟨by rw [String.length_mk, List.length_replicate], hz, by rw [hz]; norm_num⟩

theorem entryLE_iff (dist : List ℚ → List ℚ → ℚ) (q : List ℚ) (a b : IndexEntry) :
    entryLE dist q a b ↔
      dist q a.vec < dist q b.vec ∨
        (dist q a.vec = dist q b.vec ∧
          (a.docId < b.docId ∨ (a.docId = b.docId ∧ a.seq ≤ b.seq))) := by
  unfold entryLE searchKey
  simp [Prod.Lex.le_iff]

/-- C1: for every index state, distance function and query vector,
`search(query_vector, k)` returns exactly `min(k, total_chunks)` results,
pairwise ordered ascending by distance with ties broken by document id
then chunk sequence index; when `k` is at least the index size the result
is a permutation of all entries. -/
theorem search_ranked (dist : List ℚ → List ℚ → ℚ) (entries : List IndexEntry)
    (q : List ℚ) (k : ℕ) :
    (search dist entries q k).length = min k entries.length ∧
    (search dist entries q k).Pairwise (fun a b =>
      dist q a.vec < dist q b.vec ∨
        (dist q a.vec = dist q b.vec ∧
          (a.docId < b.docId ∨ (a.docId = b.docId ∧ a.seq ≤ b.seq)))) ∧
    (entries.length ≤ k → (search dist entries q k).Perm entries) := by
  refine ⟨?_, ?_, ?_⟩
  · rw [search, List.length_take,
      (List.perm_insertionSort (entryLE dist q) entries).length_eq]
  · have hs : (entries.insertionSort (entryLE dist q)).Pairwise (entryLE dist q) :=
      List.sorted_insertionSort (entryLE dist q) entries
    have hp : (search dist entries q k).Pairwise (entryLE dist q) :=
      hs.sublist (List.take_sublist k _)
    exact hp.imp (fun h => (entryLE_iff dist q _ _).mp h)
  · intro hk
    rw [search, List.take_of_length_le]
    · exact List.perm_insertionSort _ entries
    · rw [(List.perm_insertionSort (entryLE dist q) entries).length_eq]
      exact hk

theorem filter_map_comm {α β : Type} (f : α → β) (p : β → Bool) (l : List α) :
    (l.filter (fun a => p (f a))).map f = (l.map f).filter p := by
  induction l with
  | nil => rfl
  | cons a l ih =>
    simp only [List.filter_cons, List.map_cons]
    by_cases h : p (f a) = true
    · simp [h, ih]
    · simp [h, ih]

theorem consistent_length {s : Store} (h : s.consistent) :
    s.index.length = s.meta.length := by
  have := congrArg List.length h
  simpa using this

theorem map_entryCid_new (doc : String) (chunks : List ChunkData) :
    (newIndexEntries doc chunks).map entryCid =
      chunks.enum.map (fun p => (doc, p.1)) := by
  rw [newIndexEntries, List.map_map]
  rfl

theorem map_metaCid_new (doc : String) (chunks : List ChunkData) :
    (newMetaChunks doc chunks).map metaCid =
      chunks.enum.map (fun p => (doc, p.1)) := by
  rw [newMetaChunks, List.map_map]
  rfl

theorem newIndexEntries_docId {doc : String} {chunks : List ChunkData}
    {a : IndexEntry} (ha : a ∈ newIndexEntries doc chunks) : a.docId = doc := by
  obtain ⟨p, _, rfl⟩ := List.mem_map.mp ha
  rfl

theorem newMetaChunks_docId {doc : String} {chunks : List ChunkData}
    {a : MetaChunk} (ha : a ∈ newMetaChunks doc chunks) : a.docId = doc := by
  obtain ⟨p, _, rfl⟩ := List.mem_map.mp ha
  rfl

/-- C2: `upsert_document` is atomic.  From any referentially consistent
store state, the resulting state is again consistent with equal index and
metadata counts (the only observable states being the prior one and the
committed one); an uncommitted call (in particular any injected failure)
leaves the store exactly as it was; a committed call installs exactly the
new chunk/vector pairs for the document and leaves every other document's
records untouched. -/
theorem upsert_document_atomic (st : Store) (docId : String)
    (chunks : List ChunkData) (fail : Bool) (h : st.consistent) :
    (upsert_document st docId chunks fail).1.consistent ∧
    (upsert_document st docId chunks fail).1.index.length =
      (upsert_document st docId chunks fail).1.meta.length ∧
    ((upsert_document st docId chunks fail).2 = false →
      (upsert_document st docId chunks fail).1 = st) ∧
    (fail = true → (upsert_document st docId chunks fail).2 = false) ∧
    ((upsert_document st docId chunks fail).2 = true →
      (upsert_document st docId chunks fail).1.index.filter
          (fun e => e.docId == docId) = newIndexEntries docId chunks ∧
      (upsert_document st docId chunks fail).1.meta.filter
          (fun m => m.docId == docId) = newMetaChunks docId chunks ∧
      ∀ other : String, other ≠ docId →
        (upsert_document st docId chunks fail).1.index.filter
            (fun e => e.docId == other) =
          st.index.filter (fun e => e.docId == other) ∧
        (upsert_document st docId chunks fail).1.meta.filter
            (fun m => m.docId == other) =
          st.meta.filter (fun m => m.docId == other)) := by
  cases fail with
  | true =>
    refine ⟨h, consistent_length h, fun _ => rfl, fun _ => rfl, fun hc => ?_⟩
    simp [upsert_document] at hc
  | false =>
    have hcons : (upsert_document st docId chunks false).1.consistent := by
      show (st.index.filter (fun e => e.docId != docId) ++
          newIndexEntries docId chunks).map entryCid =
        (st.meta.filter (fun m => m.docId != docId) ++
          newMetaChunks docId chunks).map metaCid
      rw [List.map_append, List.map_append, map_entryCid_new, map_metaCid_new]
      have h1 : (st.index.filter (fun e => e.docId != docId)).map entryCid =
          (st.index.map entryCid).filter (fun p => p.1 != docId) :=
        filter_map_comm entryCid (fun p => p.1 != docId) st.index
      have h2 : (st.meta.filter (fun m => m.docId != docId)).map metaCid =
          (st.meta.map metaCid).filter (fun p => p.1 != docId) :=
        filter_map_comm metaCid (fun p => p.1 != docId) st.meta
      rw [h1, h2, h]
    refine ⟨hcons, consistent_length hcons, fun hc => ?_, fun hc => ?_, fun _ => ?_⟩
    · simp [upsert_document] at hc
    · simp at hc
    refine ⟨?_, ?_, ?_⟩
    · show (st.index.filter (fun e => e.docId != docId) ++
          newIndexEntries docId chunks).filter (fun e => e.docId == docId) =
        newIndexEntries docId chunks
      rw [List.filter_append, List.filter_filter]
      have hz : (st.index.filter
          (fun a => (a.docId == docId) && (a.docId != docId))) = [] := by
        refine List.filter_eq_nil_iff.mpr (fun a _ => ?_)
        simp
      rw [hz, List.nil_append]
      exact List.filter_eq_self.mpr (fun a ha => by
        simp [newIndexEntries_docId ha])
    · show (st.meta.filter (fun m => m.docId != docId) ++
          newMetaChunks docId chunks).filter (fun m => m.docId == docId) =
        newMetaChunks docId chunks
      rw [List.filter_append, List.filter_filter]
      have hz : (st.meta.filter
          (fun a => (a.docId == docId) && (a.docId != docId))) = [] := by
        refine List.filter_eq_nil_iff.mpr (fun a _ => ?_)
        simp
      rw [hz, List.nil_append]
      exact List.filter_eq_self.mpr (fun a ha => by
        simp [newMetaChunks_docId ha])
    intro other hother
    constructor
    · show (st.index.filter (fun e => e.docId != docId) ++
          newIndexEntries docId chunks).filter (fun e => e.docId == other) =
        st.index.filter (fun e => e.docId == other)
      rw [List.filter_append, List.filter_filter]
      have hz : (newIndexEntries docId chunks).filter
          (fun e => e.docId == other) = [] := by
        refine List.filter_eq_nil_iff.mpr (fun a ha => ?_)
        rw [newIndexEntries_docId ha]
        simp only [beq_iff_eq]
        exact fun hd => hother hd.symm
      rw [hz, List.append_nil]
      refine List.filter_congr (fun a _ => ?_)
      by_cases hd : a.docId = other
      · have hne : a.docId ≠ docId := by rw [hd]; exact hother
        simp [hd, hne, hother]
      · simp [hd]
    · show (st.meta.filter (fun m => m.docId != docId) ++
          newMetaChunks docId chunks).filter (fun m => m.docId == other) =
        st.meta.filter (fun m => m.docId == other)
      rw [List.filter_append, List.filter_filter]
      have hz : (newMetaChunks docId chunks).filter
          (fun m => m.docId == other) = [] := by
        refine List.filter_eq_nil_iff.mpr (fun a ha => ?_)
        rw [newMetaChunks_docId ha]
        simp only [beq_iff_eq]
        exact fun hd => hother hd.symm
      rw [hz, List.append_nil]
      refine List.filter_congr (fun a _ => ?_)
      by_cases hd : a.docId = other
      · have hne : a.docId ≠ docId := by rw [hd]; exact hother
        simp [hd, hne, hother]
      · simp [hd]

/-- Concrete instantiation of `upsert_document_atomic` on the sample
store: a committed upsert replaces the document's chunk wholesale. -/
theorem upsert_document_atomic_witness :
    sampleStore.consistent ∧
    ((upsert_document sampleStore "/a.txt" sampleChunks false).1.consistent ∧
     (upsert_document sampleStore "/a.txt" sampleChunks false).1.index.length =
       (upsert_document sampleStore "/a.txt" sampleChunks false).1.meta.length ∧
     ((upsert_document sampleStore "/a.txt" sampleChunks false).2 = false →
       (upsert_document sampleStore "/a.txt" sampleChunks false).1 = sampleStore) ∧
     (false = true →
       (upsert_document sampleStore "/a.txt" sampleChunks false).2 = false) ∧
     ((upsert_document sampleStore "/a.txt" sampleChunks false).2 = true →
       (upsert_document sampleStore "/a.txt" sampleChunks false).1.index.filter
           (fun e => e.docId == "/a.txt") = newIndexEntries "/a.txt" sampleChunks ∧
       (upsert_document sampleStore "/a.txt" sampleChunks false).1.meta.filter
           (fun m => m.docId == "/a.txt") = newMetaChunks "/a.txt" sampleChunks ∧
       ∀ other : String, other ≠ "/a.txt" →
         (upsert_document sampleStore "/a.txt" sampleChunks false).1.index.filter
             (fun e => e.docId == other) =
           sampleStore.index.filter (fun e => e.docId == other) ∧
         (upsert_document sampleStore "/a.txt" sampleChunks false).1.meta.filter
             (fun m => m.docId == other) =
           sampleStore.meta.filter (fun m => m.docId == other))) :=
  ⟨by decide, upsert_document_atomic sampleStore "/a.txt" sampleChunks false (by decide)⟩

/-- C6: loading a missing, corrupt, or version-mismatched persisted store
yields the empty index rather than an error (`load` is total), so every
subsequent search over the loaded store returns no results. -/
theorem load_degrades_to_empty (p : PersistedStore)
    (h : p = .missing ∨ p = .corrupt ∨
      ∃ v idx meta docs, p = .versioned v idx meta docs ∧ v ≠ STORE_VERSION) :
    load p = emptyStore ∧
      ∀ (dist : List ℚ → List ℚ → ℚ) (q : List ℚ) (k : ℕ),
        search dist (load p).index q k = [] := by
  have he : load p = emptyStore := by
    rcases h with rfl | rfl | ⟨v, idx, meta, docs, rfl, hv⟩
    · rfl
    · rfl
    · simp [load, hv]
  refine ⟨he, fun dist q k => ?_⟩
  rw [he]
  simp [search, emptyStore, List.insertionSort]

/-- Concrete instantiation of `load_degrades_to_empty`: a corrupt store
loads as the empty index. -/
theorem load_degrades_to_empty_witness :
    load PersistedStore.corrupt = emptyStore ∧
      ∀ (dist : List ℚ → List ℚ → ℚ) (q : List ℚ) (k : ℕ),
        search dist (load PersistedStore.corrupt).index q k = [] :=
  load_degrades_to_empty PersistedStore.corrupt (Or.inr (Or.inl rfl))

/-- C3: calling `download` while a download job is already running fails
with `AlreadyDownloading`, leaving the whole manager state — in particular
the running job and its progress — unchanged. -/
theorem download_single_flight (st : ManagerState) (sys : SysResources)
    (desc : ModelDescriptor) (j : DownloadJob) (h : st.running = some j) :
    download st sys desc = (st, .error .AlreadyDownloading) ∧
      (download st sys desc).1.running = some j := by
  have hd : download st sys desc = (st, .error .AlreadyDownloading) := by
    unfold download
    rw [h]
  exact ⟨hd, by rw [hd]; exact h⟩

/-- Concrete instantiation of `download_single_flight`: a second download
started while a job at 42% is running is rejected and the job keeps its
progress. -/
theorem download_single_flight_witness :
    download ⟨some ⟨"m1", 42, 1000⟩, [], [], 1000⟩ ⟨8, 8⟩
        ⟨"m2", "Model 2", 4, 4, "Q4", "small"⟩ =
      (⟨some ⟨"m1", 42, 1000⟩, [], [], 1000⟩, .error .AlreadyDownloading) ∧
      (download ⟨some ⟨"m1", 42, 1000⟩, [], [], 1000⟩ ⟨8, 8⟩
          ⟨"m2", "Model 2", 4, 4, "Q4", "small"⟩).1.running =
        some ⟨"m1", 42, 1000⟩ :=
  download_single_flight ⟨some ⟨"m1", 42, 1000⟩, [], [], 1000⟩ ⟨8, 8⟩
    ⟨"m2", "Model 2", 4, 4, "Q4", "small"⟩ ⟨"m1", 42, 1000⟩ rfl

/-- C5: when no download is running and the admission check fails (the
descriptor's RAM requirement exceeds available memory, or its download
size exceeds available disk), `download` is rejected with
`InsufficientResources` carrying a non-empty human-readable reason, and
the state is unchanged: no job starts, no network byte is transferred and
no partial file is created. -/
theorem download_admission_check (st : ManagerState) (sys : SysResources)
    (desc : ModelDescriptor) (h1 : st.running = none)
    (h2 : sys.availableRam < desc.ram_required ∨
      sys.availableDisk < desc.download_size) :
    ∃ reason, download st sys desc = (st, .error (.InsufficientResources reason)) ∧
      reason ≠ "" ∧
      (download st sys desc).1.bytesTransferred = st.bytesTransferred ∧
      (download st sys desc).1.tempFiles = st.tempFiles ∧
      (download st sys desc).1.running = none := by
  have key : ∃ reason,
      download st sys desc = (st, .error (.InsufficientResources reason)) ∧
        reason ≠ "" := by
    unfold download
    rw [h1]
    rcases h2 with hr | hd
    · exact ⟨"Insufficient RAM for this model", by rw [if_pos hr], by decide⟩
    · by_cases hr : sys.availableRam < desc.ram_required
      · exact ⟨"Insufficient RAM for this model", by rw [if_pos hr], by decide⟩
      · exact ⟨"Insufficient disk space for this model",
          by rw [if_neg hr, if_pos hd], by decide⟩
  obtain ⟨reason, hdl, hne⟩ := key
  exact ⟨reason, hdl, hne, by rw [hdl], by rw [hdl], by rw [hdl]; exact h1⟩

/-- Concrete instantiation of `download_admission_check`: a descriptor
requiring 8GB RAM against 4GB available is rejected with a reason, with no
transfer and no partial file. -/
theorem download_admission_check_witness :
    ∃ reason, download ⟨none, [], [], 0⟩ ⟨4, 100⟩
          ⟨"big", "Big Model", 50, 8, "Q4", "large"⟩ =
        (⟨none, [], [], 0⟩, .error (.InsufficientResources reason)) ∧
      reason ≠ "" ∧
      (download ⟨none, [], [], 0⟩ ⟨4, 100⟩
          ⟨"big", "Big Model", 50, 8, "Q4", "large"⟩).1.bytesTransferred =
        (⟨none, [], [], 0⟩ : ManagerState).bytesTransferred ∧
      (download ⟨none, [], [], 0⟩ ⟨4, 100⟩
          ⟨"big", "Big Model", 50, 8, "Q4", "large"⟩).1.tempFiles =
        (⟨none, [], [], 0⟩ : ManagerState).tempFiles ∧
      (download ⟨none, [], [], 0⟩ ⟨4, 100⟩
          ⟨"big", "Big Model", 50, 8, "Q4", "large"⟩).1.running = none :=
  download_admission_check ⟨none, [], [], 0⟩ ⟨4, 100⟩
    ⟨"big", "Big Model", 50, 8, "Q4", "large"⟩ rfl (Or.inl (by norm_num))

/-- C4: retrieval is unaffected by synthesis.  When synthesis is requested
and the Generation Provider fails, `search(query, k, want_synthesis)`
still returns the ranked chunk results paired with an empty synthesized
answer; and for every synthesis option the chunk results are exactly the
Vector Index ranking — retrieval never fails because synthesis failed. -/
theorem engineSearch_best_effort (dist : List ℚ → List ℚ → ℚ)
    (emb : String → List ℚ) (gen : List IndexEntry → GenOutcome)
    (entries : List IndexEntry) (query : String) (k : ℕ)
    (h : gen (search dist entries (emb query) k) = .failed) :
    engineSearch dist emb gen entries query k true =
      ⟨search dist entries (emb query) k, ""⟩ ∧
    ∀ want_synthesis,
      (engineSearch dist emb gen entries query k want_synthesis).results =
        search dist entries (emb query) k := by
  constructor
  · simp only [engineSearch, if_pos]
    rw [h]
  · intro want
    cases want with
    | false => rfl
    | true =>
      simp only [engineSearch, if_pos]
      cases hg : gen (search dist entries (emb query) k) <;> simp [hg]

/-- Concrete instantiation of `engineSearch_best_effort`: with an
always-failing Generation Provider and a one-entry index, retrieval still
returns the ranked chunk and an empty answer. -/
theorem engineSearch_best_effort_witness :
    engineSearch l2sq (fun _ => [1]) (fun _ => GenOutcome.failed)
        [⟨"/a.txt", 0, [1]⟩] "query" 5 true =
      ⟨search l2sq [⟨"/a.txt", 0, [1]⟩] ((fun _ => ([1] : List ℚ)) "query") 5, ""⟩ ∧
    ∀ want_synthesis,
      (engineSearch l2sq (fun _ => [1]) (fun _ => GenOutcome.failed)
          [⟨"/a.txt", 0, [1]⟩] "query" 5 want_synthesis).results =
        search l2sq [⟨"/a.txt", 0, [1]⟩] ((fun _ => ([1] : List ℚ)) "query") 5 :=
  engineSearch_best_effort l2sq (fun _ => [1]) (fun _ => GenOutcome.failed)
    [⟨"/a.txt", 0, [1]⟩] "query" 5 rfl

theorem filter_ne_then_eq {α : Type} (key : α → String) (l : List α) (x p : String)
    (hxp : x ≠ p) :
    (l.filter (fun a => key a != x)).filter (fun a => key a == p) =
      l.filter (fun a => key a == p) := by
  rw [List.filter_filter]
  refine List.filter_congr (fun a _ => ?_)
  by_cases hk : key a = p
  · have hne : key a ≠ x := fun he => hxp (he.symm.trans hk)
    simp [hk, hne, Ne.symm hxp]
  · simp [hk]

theorem filter_ne_then_eq_self {α : Type} (key : α → String) (l : List α)
    (x : String) :
    (l.filter (fun a => key a != x)).filter (fun a => key a == x) = [] := by
  rw [List.filter_filter]
  refine List.filter_eq_nil_iff.mpr (fun a _ h => ?_)
  rw [Bool.and_eq_true, beq_iff_eq, bne_iff_ne] at h
  exact h.2 h.1

theorem filter_empty_of_filter_empty {α : Type} (pred keep : α → Bool)
    (l : List α) (h : l.filter pred = []) : (l.filter keep).filter pred = [] := by
  have hs := (List.filter_sublist (p := keep) l).filter pred
  rw [h] at hs
  exact List.sublist_nil.mp hs

theorem removeStep_preserves (s : Store) (d : DocRecord) (p : String)
    (hne : d.path ≠ p) :
    (removeStep s d).index.filter (fun e => e.docId == p) =
        s.index.filter (fun e => e.docId == p) ∧
      (removeStep s d).meta.filter (fun m => m.docId == p) =
        s.meta.filter (fun m => m.docId == p) ∧
      (removeStep s d).docs.filter (fun d0 => d0.path == p) =
        s.docs.filter (fun d0 => d0.path == p) :=
  ⟨filter_ne_then_eq (fun e => e.docId) s.index d.path p hne,
   filter_ne_then_eq (fun m => m.docId) s.meta d.path p hne,
   filter_ne_then_eq (fun d0 => d0.path) s.docs d.path p hne⟩

theorem removeStep_empties (s : Store) (d : DocRecord) :
    (removeStep s d).index.filter (fun e => e.docId == d.path) = [] ∧
      (removeStep s d).meta.filter (fun m => m.docId == d.path) = [] ∧
      (removeStep s d).docs.filter (fun d0 => d0.path == d.path) = [] :=
  ⟨filter_ne_then_eq_self (fun e => e.docId) s.index d.path,
   filter_ne_then_eq_self (fun m => m.docId) s.meta d.path,
   filter_ne_then_eq_self (fun d0 => d0.path) s.docs d.path⟩

theorem removeStep_keeps_empty (s : Store) (d : DocRecord) (p : String)
    (h : s.index.filter (fun e => e.docId == p) = [] ∧
      s.meta.filter (fun m => m.docId == p) = [] ∧
      s.docs.filter (fun d0 => d0.path == p) = []) :
    (removeStep s d).index.filter (fun e => e.docId == p) = [] ∧
      (removeStep s d).meta.filter (fun m => m.docId == p) = [] ∧
      (removeStep s d).docs.filter (fun d0 => d0.path == p) = [] :=
  ⟨filter_empty_of_filter_empty _ _ _ h.1,
   filter_empty_of_filter_empty _ _ _ h.2.1,
   filter_empty_of_filter_empty _ _ _ h.2.2⟩

theorem foldl_removeStep_preserves (ds : List DocRecord) (p : String) :
    ∀ s : Store, (∀ d ∈ ds, d.path ≠ p) →
      (ds.foldl removeStep s).index.filter (fun e => e.docId == p) =
          s.index.filter (fun e => e.docId == p) ∧
        (ds.foldl removeStep s).meta.filter (fun m => m.docId == p) =
          s.meta.filter (fun m => m.docId == p) ∧
        (ds.foldl removeStep s).docs.filter (fun d0 => d0.path == p) =
          s.docs.filter (fun d0 => d0.path == p) := by
  induction ds with
  | nil => exact fun s _ => ⟨rfl, rfl, rfl⟩
  | cons d ds ih =>
    intro s h
    have hd : d.path ≠ p := h d (List.mem_cons_self d ds)
    obtain ⟨h1, h2, h3⟩ := removeStep_preserves s d p hd
    obtain ⟨g1, g2, g3⟩ :=
      ih (removeStep s d) (fun d' hd' => h d' (List.mem_cons_of_mem d hd'))
    have hf : (d :: ds).foldl removeStep s = ds.foldl removeStep (removeStep s d) := rfl
    exact ⟨by rw [hf, g1, h1], by rw [hf, g2, h2], by rw [hf, g3, h3]⟩

theorem foldl_removeStep_keeps_empty (ds : List DocRecord) (p : String) :
    ∀ s : Store,
      (s.index.filter (fun e => e.docId == p) = [] ∧
        s.meta.filter (fun m => m.docId == p) = [] ∧
        s.docs.filter (fun d0 => d0.path == p) = []) →
      (ds.foldl removeStep s).index.filter (fun e => e.docId == p) = [] ∧
        (ds.foldl removeStep s).meta.filter (fun m => m.docId == p) = [] ∧
        (ds.foldl removeStep s).docs.filter (fun d0 => d0.path == p) = [] := by
  induction ds with
  | nil => exact fun s h => h
  | cons d ds ih => exact fun s h => ih (removeStep s d) (removeStep_keeps_empty s d p h)

theorem foldl_removeStep_removes (ds : List DocRecord) (d0 : DocRecord) :
    ∀ s : Store, d0 ∈ ds →
      (ds.foldl removeStep s).index.filter (fun e => e.docId == d0.path) = [] ∧
        (ds.foldl removeStep s).meta.filter (fun m => m.docId == d0.path) = [] ∧
        (ds.foldl removeStep s).docs.filter (fun dd => dd.path == d0.path) = [] := by
  induction ds with
  | nil => intro s h; exact absurd h (List.not_mem_nil d0)
  | cons d ds ih =>
    intro s hmem
    rcases List.mem_cons.mp hmem with rfl | hmem
    · exact foldl_removeStep_keeps_empty ds d0.path (removeStep s d0)
        (removeStep_empties s d0)
    · exact ih (removeStep s d) hmem

theorem indexFile_unchanged (emb : String → List ℚ) (st : Store) (f : FileInfo)
    (h : matchesStored st f) : indexFile emb st f = (st, 0) := by
  obtain ⟨d, hd, hs, hm⟩ := h
  unfold indexFile
  rw [hd]
  simp [hs, hm]

theorem scan_unchanged (emb : String → List ℚ) (files : List FileInfo) :
    ∀ (st : Store) (n : ℕ), (∀ f ∈ files, matchesStored st f) →
      files.foldl (scanStep emb) (st, n) = (st, n) := by
  induction files with
  | nil => intro st n _; rfl
  | cons f fs ih =>
    intro st n h
    have h1 : indexFile emb st f = (st, 0) :=
      indexFile_unchanged emb st f (h f (List.mem_cons_self f fs))
    have hstep : scanStep emb (st, n) f = (st, n) := by
      simp [scanStep, h1]
    calc (f :: fs).foldl (scanStep emb) (st, n)
        = fs.foldl (scanStep emb) (scanStep emb (st, n) f) := rfl
      _ = fs.foldl (scanStep emb) (st, n) := by rw [hstep]
      _ = (st, n) := ih st n (fun f' hf' => h f' (List.mem_cons_of_mem f hf'))

/-- C7: re-running incremental indexing over files whose (size,
modified-time) all match their stored Document records performs zero
Embedding Provider calls, leaves every scanned document's chunk and vector
records unchanged, and removes the records of every stored document
missing from the scan. -/
theorem incremental_reindex_noop (emb : String → List ℚ) (st : Store)
    (files : List FileInfo) (h : ∀ f ∈ files, matchesStored st f) :
    (incrementalIndex emb st files).2 = 0 ∧
    (∀ f ∈ files,
      (incrementalIndex emb st files).1.index.filter (fun e => e.docId == f.path) =
        st.index.filter (fun e => e.docId == f.path) ∧
      (incrementalIndex emb st files).1.meta.filter (fun m => m.docId == f.path) =
        st.meta.filter (fun m => m.docId == f.path)) ∧
    (∀ d ∈ st.docs, (∀ f ∈ files, f.path ≠ d.path) →
      (incrementalIndex emb st files).1.index.filter (fun e => e.docId == d.path) = [] ∧
      (incrementalIndex emb st files).1.meta.filter (fun m => m.docId == d.path) = [] ∧
      (incrementalIndex emb st files).1.docs.filter (fun d0 => d0.path == d.path) = []) := by
  have hscan : files.foldl (scanStep emb) (st, 0) = (st, 0) :=
    scan_unchanged emb files st 0 h
  have hii : incrementalIndex emb st files =
      ((st.docs.filter (fun d => !(files.any (fun f => f.path == d.path)))).foldl
          removeStep st, 0) := by
    simp only [incrementalIndex, hscan]
  refine ⟨by rw [hii], fun f hf => ?_, fun d hd hnf => ?_⟩
  · have hall : ∀ d' ∈ st.docs.filter
        (fun d0 => !(files.any (fun f0 => f0.path == d0.path))), d'.path ≠ f.path := by
      intro d' hd' hfp
      have hne := (List.mem_filter.mp hd').2
      have htrue : files.any (fun f0 => f0.path == d'.path) = true :=
        List.any_eq_true.mpr ⟨f, hf, beq_iff_eq.mpr hfp.symm⟩
      rw [htrue] at hne
      simp at hne
    obtain ⟨p1, p2, _⟩ := foldl_removeStep_preserves _ f.path st hall
    rw [hii]
    exact ⟨p1, p2⟩
  · have hnot : ¬ (files.any (fun f0 => f0.path == d.path) = true) := by
      rw [List.any_eq_true]
      rintro ⟨f0, hf0, hp⟩
      exact hnf f0 hf0 (beq_iff_eq.mp hp)
    have hmem : d ∈ st.docs.filter
        (fun d0 => !(files.any (fun f0 => f0.path == d0.path))) := by
      refine List.mem_filter.mpr ⟨hd, ?_⟩
      cases hb : files.any (fun f0 => f0.path == d.path) with
      | false => rfl
      | true => exact absurd hb hnot
    rw [hii]
    exact foldl_removeStep_removes _ d st hmem

/-- Concrete instantiation of `incremental_reindex_noop`: one unchanged
scanned file, one stored document missing from the scan. -/
theorem incremental_reindex_noop_witness :
    (∀ f ∈ [(⟨"/a.txt", 5, 7, "hello"⟩ : FileInfo)],
      matchesStored ⟨[⟨"/a.txt", 0, [1]⟩], [⟨"/a.txt", 0, "hello"⟩],
        [⟨"/a.txt", 5, 7⟩, ⟨"/b.txt", 3, 4⟩]⟩ f) ∧
    ((incrementalIndex (fun _ => [1])
        ⟨[⟨"/a.txt", 0, [1]⟩], [⟨"/a.txt", 0, "hello"⟩],
          [⟨"/a.txt", 5, 7⟩, ⟨"/b.txt", 3, 4⟩]⟩
        [⟨"/a.txt", 5, 7, "hello"⟩]).2 = 0 ∧
      (∀ f ∈ [(⟨"/a.txt", 5, 7, "hello"⟩ : FileInfo)],
        (incrementalIndex (fun _ => [1])
            ⟨[⟨"/a.txt", 0, [1]⟩], [⟨"/a.txt", 0, "hello"⟩],
              [⟨"/a.txt", 5, 7⟩, ⟨"/b.txt", 3, 4⟩]⟩
            [⟨"/a.txt", 5, 7, "hello"⟩]).1.index.filter
            (fun e => e.docId == f.path) =
          (⟨[⟨"/a.txt", 0, [1]⟩], [⟨"/a.txt", 0, "hello"⟩],
            [⟨"/a.txt", 5, 7⟩, ⟨"/b.txt", 3, 4⟩]⟩ : Store).index.filter
            (fun e => e.docId == f.path) ∧
        (incrementalIndex (fun _ => [1])
            ⟨[⟨"/a.txt", 0, [1]⟩], [⟨"/a.txt", 0, "hello"⟩],
              [⟨"/a.txt", 5, 7⟩, ⟨"/b.txt", 3, 4⟩]⟩
            [⟨"/a.txt", 5, 7, "hello"⟩]).1.meta.filter
            (fun m => m.docId == f.path) =
          (⟨[⟨"/a.txt", 0, [1]⟩], [⟨"/a.txt", 0, "hello"⟩],
            [⟨"/a.txt", 5, 7⟩, ⟨"/b.txt", 3, 4⟩]⟩ : Store).meta.filter
            (fun m => m.docId == f.path)) ∧
      (∀ d ∈ (⟨[⟨"/a.txt", 0, [1]⟩], [⟨"/a.txt", 0, "hello"⟩],
          [⟨"/a.txt", 5, 7⟩, ⟨"/b.txt", 3, 4⟩]⟩ : Store).docs,
        (∀ f ∈ [(⟨"/a.txt", 5, 7, "hello"⟩ : FileInfo)], f.path ≠ d.path) →
        (incrementalIndex (fun _ => [1])
            ⟨[⟨"/a.txt", 0, [1]⟩], [⟨"/a.txt", 0, "hello"⟩],
              [⟨"/a.txt", 5, 7⟩, ⟨"/b.txt", 3, 4⟩]⟩
            [⟨"/a.txt", 5, 7, "hello"⟩]).1.index.filter
            (fun e => e.docId == d.path) = [] ∧
        (incrementalIndex (fun _ => [1])
            ⟨[⟨"/a.txt", 0, [1]⟩], [⟨"/a.txt", 0, "hello"⟩],
              [⟨"/a.txt", 5, 7⟩, ⟨"/b.txt", 3, 4⟩]⟩
            [⟨"/a.txt", 5, 7, "hello"⟩]).1.meta.filter
            (fun m => m.docId == d.path) = [] ∧
        (incrementalIndex (fun _ => [1])
            ⟨[⟨"/a.txt", 0, [1]⟩], [⟨"/a.txt", 0, "hello"⟩],
              [⟨"/a.txt", 5, 7⟩, ⟨"/b.txt", 3, 4⟩]⟩
            [⟨"/a.txt", 5, 7, "hello"⟩]).1.docs.filter
            (fun d0 => d0.path == d.path) = [])) :=
  ⟨fun f hf => by
      rw [List.mem_singleton] at hf
      subst hf
      exact ⟨⟨"/a.txt", 5, 7⟩, rfl, rfl, rfl⟩,
    incremental_reindex_noop (fun _ => [1]) _ _ (fun f hf => by
      rw [List.mem_singleton] at hf
      subst hf
      exact ⟨⟨"/a.txt", 5, 7⟩, rfl, rfl, rfl⟩)⟩

end FSE
